import Mathlib

/-!
# Verification of the ASTOB order-generation pipeline

A shallow embedding of `generate_orders.py`: the record normalizer
(`parse_amount`, `parse_datetime`), the schema resolver (`find_col`), the
reconciliation engine and template renderer inside `run_generator`, together
with theorems settling the specification claims.

Modelling conventions:
* Python floats are modelled by `ℚ` (all amounts appearing in the claims are
  decimal literals, represented exactly by both `ℚ` and binary floats in the
  ranges at hand, and float addition on such small sets of values agrees
  with exact rational addition well within the `1e-9` tolerances compared
  against).
* Cell values coming out of pandas are modelled by the tagged type `RawVal`
  (missing/NaN, numeric, string, datetime), because the script probes them
  with `pd.isna`, `isinstance(_, datetime)` and `str(_)`.
* Python's `str.strip`, `str.replace` with one-character patterns, and
  substring tests are modelled at the character-list level (`stripCs`,
  `List.filter` / `List.map`, `occursCs`).
* `pd.to_datetime(s, dayfirst=True, errors="coerce")`, an external pandas
  routine, is passed into the model as an explicit parameter
  `pdFallback : String → Option DateTime` (`none` models `NaT`).
-/

/-- A raw cell value as loaded by pandas: missing (`NaN`/`None`), a number,
a string, or an already-parsed datetime. -/
inductive RawVal where
  | na : RawVal
  | num : ℚ → RawVal
  | str : String → RawVal
  | dt : Nat → Nat → Nat → Nat → Nat → Nat → RawVal
deriving DecidableEq, Repr

/-- A `datetime` value: year, month, day, hour, minute, second
(microseconds are never produced by the script's parsers). -/
structure DateTime where
  year : Nat
  month : Nat
  day : Nat
  hour : Nat
  minute : Nat
  second : Nat
deriving DecidableEq, Repr

/-- `datetime.min` = 0001-01-01 00:00:00, the sentinel returned by
`parse_datetime` for unparsable dates. -/
def dtMin : DateTime := ⟨1, 1, 1, 0, 0, 0⟩

/-- The comparison key of a `datetime`: lexicographic on
(year, month, day, hour, minute, second), exactly Python's `datetime`
ordering. -/
def DateTime.key (d : DateTime) : ℕ ×ₗ ℕ ×ₗ ℕ ×ₗ ℕ ×ₗ ℕ ×ₗ ℕ :=
  toLex (d.year, toLex (d.month, toLex (d.day,
    toLex (d.hour, toLex (d.minute, d.second)))))

/-- Chronological order on `DateTime` (Python `datetime` comparison). -/
def dtLE (a b : DateTime) : Prop := a.key ≤ b.key

instance : DecidableRel dtLE := fun a b => inferInstanceAs (Decidable (a.key ≤ b.key))

/-- Leading decimal digits of a character list, and the rest. -/
def takeDigits (cs : List Char) : List Char × List Char :=
  (cs.takeWhile Char.isDigit, cs.dropWhile Char.isDigit)

/-- Numeric value of a list of decimal digits. -/
def digitsVal (cs : List Char) : Nat :=
  cs.foldl (fun acc c => 10 * acc + (c.toNat - 48)) 0

/-- Whitespace test used to model Python `str.strip`. -/
def isWS (c : Char) : Bool := c.isWhitespace

/-- Model of Python `str.strip()` on a character list. -/
def stripCs (cs : List Char) : List Char :=
  ((cs.dropWhile isWS).reverse.dropWhile isWS).reverse

/-- The unsigned magnitude of a Python float literal: digits, optionally a
decimal point and more digits, nothing else; at least one digit. -/
def pyFloatMag (cs₁ : List Char) : Option ℚ :=
  let (ip, cs₂) := takeDigits cs₁
  match cs₂ with
  | [] => if ip.isEmpty then none else some (digitsVal ip)
  | '.' :: cs₃ =>
    let (fp, cs₄) := takeDigits cs₃
    if cs₄.isEmpty && !(ip.isEmpty && fp.isEmpty) then
      some ((digitsVal ip : ℚ) + Rat.divInt (digitsVal fp) ((10 ^ fp.length : ℕ) : ℤ))
    else none
  | _ => none

/-- Model of Python `float(s)` restricted to plain decimal notation:
optional sign, digits, optional decimal point. Exponent, `inf`/`nan`
literals and digit-grouping underscores are outside the model (none of the
claims exercises them, and `ℚ` cannot represent the non-finite results).
Returns `none` where `float` raises `ValueError`. -/
def pyFloat (s : String) : Option ℚ :=
  match stripCs s.toList with
  | '-' :: r => (pyFloatMag r).map (fun q => -q)
  | '+' :: r => pyFloatMag r
  | cs => pyFloatMag cs

/-- `str(v)` for the raw values the amount parser can receive. For numbers,
Python's `repr` round-trips through `float` exactly; our model only needs
that `pyFloat (numStr q) = some q` never fails for plain decimals, which the
claims' inputs satisfy; for `na` Python gives `"nan"`, and for datetimes a
`"YYYY-MM-DD HH:MM:SS"` string — neither parses as a float nor contains a
comma, which is all the amount parser observes about them. -/
def pyStrOfChars (cs : List Char) : String := String.mk cs

/-- `parse_amount` (generate_orders.py lines 78-101): turn Romanian-style
`'1.234,56'` / `'46,16'` / `'46'` cell values into a number, `0.0` on any
failure, never raising. The string branch works on the `str(v).strip()`
image; numeric values round-trip through `float(str(v))` unchanged, missing
values hit the `pd.isna` guard, and `str(datetime)` images fail both float
attempts and contain no comma, yielding `0.0`. -/
def parse_amount (v : RawVal) : ℚ :=
  match v with
  | .na => 0
  | .num q => q
  | .dt _ _ _ _ _ _ => 0
  | .str s₀ =>
    let s := stripCs s₀.toList
    match pyFloat (pyStrOfChars s) with
    | some q => q
    | none =>
      let s₁ := s.filter (fun c => c ≠ ' ')
      let s₂ :=
        if s₁.contains ',' && s₁.contains '.' then
          (s₁.filter (fun c => c ≠ '.')).map (fun c => if c = ',' then '.' else c)
        else if s₁.contains ',' then
          s₁.map (fun c => if c = ',' then '.' else c)
        else s₁
      (pyFloat (pyStrOfChars s₂)).getD 0

/-- Case-folding for the alphabet the header normalizer meets: ASCII
letters plus the Romanian diacritic letters named in `_norm` (Python
`str.lower` restricted to that alphabet). -/
def charLower (c : Char) : Char :=
  if 'A' ≤ c ∧ c ≤ 'Z' then Char.ofNat (c.toNat + 32)
  else if c = 'Ă' then 'ă'
  else if c = 'Â' then 'â'
  else if c = 'Ș' then 'ș'
  else if c = 'Ţ' then 'ţ'
  else if c = 'Ț' then 'ț'
  else if c = 'Î' then 'î'
  else c

/-- The diacritic folding of `_norm`: `ă,â→a`, `ș→s`, `ţ,ț→t`, `î→i`
(the script lists exactly these six lowercase letters). -/
def foldDiacritic (c : Char) : Char :=
  if c = 'ă' ∨ c = 'â' then 'a'
  else if c = 'ș' then 's'
  else if c = 'ţ' ∨ c = 'ț' then 't'
  else if c = 'î' then 'i'
  else c

/-- Punctuation-to-space step of `_norm`: `.`, `_`, `-` become spaces. -/
def punctToSpace (c : Char) : Char :=
  if c = '.' ∨ c = '_' ∨ c = '-' then ' ' else c

/-- Python `s.replace("  ", " ")`: each non-overlapping double space is
replaced by one space in a single left-to-right pass (three spaces thus
leave two). -/
def collapse2 : List Char → List Char
  | ' ' :: ' ' :: rest => ' ' :: collapse2 rest
  | c :: rest => c :: collapse2 rest
  | [] => []

/-- `_norm` (generate_orders.py lines 50-55): lower-case, fold Romanian
diacritics, turn `.`/`_`/`-` into spaces, collapse double spaces once,
strip. -/
def _norm (s : String) : String :=
  String.mk (stripCs (collapse2 (((s.toList.map charLower).map foldDiacritic).map punctToSpace)))

/-- Python's substring test `n in h` on character lists. -/
def occursCs (n : List Char) : List Char → Bool
  | [] => n.isEmpty
  | c :: rest => n.isPrefixOf (c :: rest) || occursCs n rest

/-- Python's substring test `n in h` for strings. -/
def occurs (n h : String) : Bool := occursCs n.toList h.toList

/-- One step of building the `norms` dict `{_norm(c): c for c in columns}`:
inserting a later column whose normalized form collides overwrites the
stored column name but keeps the key's original position. -/
def insertNorm (m : List (String × String)) (k v : String) : List (String × String) :=
  if m.any (fun p => p.1 == k) then
    m.map (fun p => if p.1 == k then (k, v) else p)
  else m ++ [(k, v)]

/-- The `norms` dict of `find_col`, in insertion order. -/
def normsOf (headers : List String) : List (String × String) :=
  headers.foldl (fun m h => insertNorm m (_norm h) h) []

/-- `find_col` (generate_orders.py lines 58-73): first an exact match of
normalized candidate against normalized headers in candidate order, then a
fallback accepting the first candidate whose normalized form occurs as a
substring *of* a normalized header (dict iteration order); `none` models
the `KeyError`. -/
def find_col (headers : List String) (candidates : List String) : Option String :=
  let norms := normsOf headers
  match candidates.findSome? (fun cand =>
      (norms.find? (fun p => p.1 == _norm cand)).map (·.2)) with
  | some v => some v
  | none =>
    candidates.findSome? (fun cand =>
      (norms.find? (fun p => occurs (_norm cand) p.1)).map (·.2))

/-- Parse 1-2 leading digits whose value lies in `[lo, hi]` (the regexes
CPython's `strptime` builds for `%d`, `%m`, `%H`, `%M`, `%S`). -/
def pInt2 (lo hi : Nat) (cs : List Char) : Option (Nat × List Char) :=
  let (ds, rest) := takeDigits cs
  if (ds.length = 1 ∨ ds.length = 2) ∧ lo ≤ digitsVal ds ∧ digitsVal ds ≤ hi then
    some (digitsVal ds, rest)
  else none

/-- Parse exactly 4 leading digits (`strptime`'s `%Y`). -/
def pYear4 (cs : List Char) : Option (Nat × List Char) :=
  let (ds, rest) := takeDigits cs
  if ds.length = 4 then some (digitsVal ds, rest) else none

/-- Consume one expected literal character. -/
def pLit (c : Char) : List Char → Option (List Char)
  | x :: rest => if x = c then some rest else none
  | [] => none

/-- Gregorian leap year. -/
def isLeap (y : Nat) : Bool := y % 4 = 0 ∧ (y % 100 ≠ 0 ∨ y % 400 = 0)

/-- Days in a month, as validated by `datetime`'s constructor. -/
def daysInMonth (y m : Nat) : Nat :=
  if m = 2 then (if isLeap y then 29 else 28)
  else if m = 4 ∨ m = 6 ∨ m = 9 ∨ m = 11 then 30
  else 31

/-- Build a `datetime`, failing (as `strptime` does) when the day does not
exist in the month. -/
def mkDate (y m d h mi s : Nat) : Option DateTime :=
  if d ≤ daysInMonth y m then some ⟨y, m, d, h, mi, s⟩ else none

/-- `%d sep %m sep %Y` date part. -/
def pDMY (sep : Char) (cs : List Char) : Option (Nat × Nat × Nat × List Char) := do
  let (d, r₁) ← pInt2 1 31 cs
  let r₂ ← pLit sep r₁
  let (m, r₃) ← pInt2 1 12 r₂
  let r₄ ← pLit sep r₃
  let (y, r₅) ← pYear4 r₄
  pure (y, m, d, r₅)

/-- `%Y sep %m sep %d` date part. -/
def pYMD (sep : Char) (cs : List Char) : Option (Nat × Nat × Nat × List Char) := do
  let (y, r₁) ← pYear4 cs
  let r₂ ← pLit sep r₁
  let (m, r₃) ← pInt2 1 12 r₂
  let r₄ ← pLit sep r₃
  let (d, r₅) ← pInt2 1 31 r₄
  pure (y, m, d, r₅)

/-- `%H:%M:%S` time part. -/
def pHMS (cs : List Char) : Option (Nat × Nat × Nat × List Char) := do
  let (h, r₁) ← pInt2 0 23 cs
  let r₂ ← pLit ':' r₁
  let (mi, r₃) ← pInt2 0 59 r₂
  let r₄ ← pLit ':' r₃
  let (s, r₅) ← pInt2 0 59 r₄
  pure (h, mi, s, r₅)

/-- Run one `strptime` format: a date part, optionally followed by a space
and `%H:%M:%S`; the whole string must be consumed. -/
def runFmt (pdate : List Char → Option (Nat × Nat × Nat × List Char))
    (withTime : Bool) (s : String) : Option DateTime := do
  let (y, m, d, rest) ← pdate s.toList
  if withTime then do
    let r₁ ← pLit ' ' rest
    let (h, mi, sec, r₂) ← pHMS r₁
    if r₂.isEmpty then mkDate y m d h mi sec else none
  else
    if rest.isEmpty then mkDate y m d 0 0 0 else none

/-- The `strptime` cascade of `parse_datetime` (generate_orders.py line
118), in source order: `%Y-%m-%d %H:%M:%S`, `%Y-%m-%d`, `%d.%m.%Y
%H:%M:%S`, `%d.%m.%Y`, `%Y/%m/%d %H:%M:%S`, `%d/%m/%Y %H:%M:%S`,
`%d/%m/%Y`. -/
def tryFormats (s : String) : Option DateTime :=
  [runFmt (pYMD '-') true, runFmt (pYMD '-') false,
   runFmt (pDMY '.') true, runFmt (pDMY '.') false,
   runFmt (pYMD '/') true,
   runFmt (pDMY '/') true, runFmt (pDMY '/') false].findSome? (fun f => f s)

/-- The time-of-day cascade (`%H:%M:%S`, then `%H:%M`; the latter leaves
seconds at 0). -/
def tryTimeFormats (ts : String) : Option (Nat × Nat × Nat) :=
  match (do
      let (h, mi, s, r) ← pHMS ts.toList
      if r.isEmpty then some (h, mi, s) else none) with
  | some t => some t
  | none => do
    let (h, r₁) ← pInt2 0 23 ts.toList
    let r₂ ← pLit ':' r₁
    let (mi, r₃) ← pInt2 0 59 r₂
    if r₃.isEmpty then some (h, mi, 0) else none

/-- Lines 134-143: overwrite the time-of-day from the separate time column
when the time value is truthy (not `None`, not `""`) and the date carried
no time-of-day; the time string is `str(..).strip()`-normalized, and an
unparsable time leaves the date unchanged. -/
def applyTime (base : DateTime) (time_str : Option String) : DateTime :=
  match time_str with
  | none => base
  | some t =>
    if t ≠ "" ∧ base.hour = 0 ∧ base.minute = 0 ∧ base.second = 0 then
      match tryTimeFormats (String.mk (stripCs t.toList)) with
      | some (h, mi, s) => { base with hour := h, minute := mi, second := s }
      | none => base
    else base

/-- The date-string path of `parse_datetime`: the `strptime` cascade on the
stripped string, then the pandas `to_datetime(…, dayfirst=True,
errors="coerce")` fallback supplied as the parameter `pdFallback`
(`none` models `NaT`). -/
def dateFromString (pdFallback : String → Option DateTime) (s₀ : String) : Option DateTime :=
  let s := String.mk (stripCs s₀.toList)
  match tryFormats s with
  | some b => some b
  | none => pdFallback s

/-- `parse_datetime` (generate_orders.py lines 104-145): missing dates and
dates that neither the format cascade nor the pandas fallback can read
yield `datetime.min`; already-parsed datetimes pass through; a parsed date
with zero time-of-day is combined with the separate time column. The
`.num` branch goes through `str(v)` (modelled by `toString`); no claim
exercises numeric date cells. -/
def parse_datetime (pdFallback : String → Option DateTime)
    (date_str : RawVal) (time_str : Option String) : DateTime :=
  match date_str with
  | .na => dtMin
  | .dt y mo d h mi s => applyTime ⟨y, mo, d, h, mi, s⟩ time_str
  | .num q =>
    match dateFromString pdFallback (toString q) with
    | none => dtMin
    | some b => applyTime b time_str
  | .str s =>
    match dateFromString pdFallback s with
    | none => dtMin
    | some b => applyTime b time_str

/-- Romanian month names of `ro_month_upper`. -/
def roMonths : List String :=
  ["IANUARIE", "FEBRUARIE", "MARTIE", "APRILIE", "MAI", "IUNIE", "IULIE",
   "AUGUST", "SEPTEMBRIE", "OCTOMBRIE", "NOIEMBRIE", "DECEMBRIE"]

/-- `ro_month_upper` (lines 148-154): `"<day> <MONTH> <year>"`, empty month
name when out of range. -/
def ro_month_upper (d : DateTime) : String :=
  toString d.day ++ " " ++ roMonths.getD (d.month - 1) "" ++ " " ++ toString d.year

/-- Zero-pad to two digits (`strftime` `%d`/`%m`/`%H`/`%M`/`%S`). -/
def pad2 (n : Nat) : String := if n < 10 then "0" ++ toString n else toString n

/-- Zero-pad to four digits (`strftime` `%Y`). -/
def pad4 (n : Nat) : String :=
  if n < 10 then "000" ++ toString n
  else if n < 100 then "00" ++ toString n
  else if n < 1000 then "0" ++ toString n
  else toString n

/-- `strftime("%d.%m.%Y")`. -/
def fmtDMY (d : DateTime) : String :=
  pad2 d.day ++ "." ++ pad2 d.month ++ "." ++ pad4 d.year

/-- `strftime("%Y-%m-%d %H:%M:%S")`. -/
def fmtYMDHMS (d : DateTime) : String :=
  pad4 d.year ++ "-" ++ pad2 d.month ++ "-" ++ pad2 d.day ++ " " ++
  pad2 d.hour ++ ":" ++ pad2 d.minute ++ ":" ++ pad2 d.second

/-- Python `str.strip()` at the `String` level. -/
def pyStrip (s : String) : String := String.mk (stripCs s.toList)

/-- A raw row of the KEY table, each field the `str()` image of its cell
(the script applies `.astype(str)` before any use). `site` is the
`DENUMIRE SITE` column; the `siteCol` flag of the pipeline records whether
that column exists at all. -/
structure KeyRowRaw where
  tid : String
  nume : String
  cui : String
  reg : String
  adresa : String
  site : String
deriving DecidableEq, Repr

/-- One normalized entry of `key_map` (lines 305-330): every field
whitespace-stripped, `site` forced to `""` when the KEY table has no site
column. -/
structure KeyInfo where
  tid : String
  nume : String
  cui : String
  reg : String
  adresa : String
  site : String
deriving DecidableEq, Repr

/-- The normalized KEY rows, in table order. -/
def keyInfos (siteCol : Bool) (key : List KeyRowRaw) : List KeyInfo :=
  key.map fun r =>
    { tid := pyStrip r.tid, nume := pyStrip r.nume, cui := pyStrip r.cui,
      reg := pyStrip r.reg, adresa := pyStrip r.adresa,
      site := if siteCol then pyStrip r.site else "" }

/-- `key_map.get(tid)`: the dict is filled in row order with plain
assignment, so a duplicate `tid` is overwritten by the later row —
last match wins. -/
def keyMapLookup (kis : List KeyInfo) (tid : String) : Option KeyInfo :=
  (kis.filter (fun k => k.tid == tid)).getLast?

/-- A raw row of the ASTOB table; string fields are the `str()` images of
the cells, `suma`/`dataRaw` keep their pandas-typed value, `ora` is the
time column's value (consulted only when the pipeline's `oraCol` flag says
the column exists). -/
structure AstRow where
  tid : String
  site : String
  produs : String
  suma : RawVal
  dataRaw : RawVal
  ora : String
deriving DecidableEq, Repr

/-- One element of the `rows` list (lines 349-359), plus the ghost field
`idx` recording the position of the source row in the ASTOB table (used
only to state stability of the sorts; the script itself never materializes
it). -/
structure TxRow where
  client : String
  tid : String
  site : String
  produs : String
  cui : String
  reg : String
  adresa : String
  valoare : ℚ
  data : DateTime
  idx : Nat
deriving DecidableEq, Repr

/-- The body of the per-transaction loop (lines 334-359): normalize the
terminal id, drop the row when it misses `key_map`, otherwise take the
client and billing metadata from the matched KEY record, the site from KEY
when nonempty (falling back to the transaction's own site column), and
parse amount and timestamp. -/
def mkTxRow (pdFallback : String → Option DateTime) (oraCol : Bool)
    (kis : List KeyInfo) (i : Nat) (tr : AstRow) : Option TxRow :=
  let tid := pyStrip tr.tid
  match keyMapLookup kis tid with
  | none => none
  | some km => some
    { client := km.nume, tid := tid,
      site := if km.site ≠ "" then km.site else pyStrip tr.site,
      produs := pyStrip tr.produs,
      cui := km.cui, reg := km.reg, adresa := km.adresa,
      valoare := parse_amount tr.suma,
      data := parse_datetime pdFallback tr.dataRaw (if oraCol then some tr.ora else none),
      idx := i }

/-- The transaction loop with its (ghost) row counter. -/
def buildRowsAux (pdFallback : String → Option DateTime) (oraCol : Bool)
    (kis : List KeyInfo) : Nat → List AstRow → List TxRow
  | _, [] => []
  | i, tr :: trs =>
    match mkTxRow pdFallback oraCol kis i tr with
    | none => buildRowsAux pdFallback oraCol kis (i + 1) trs
    | some row => row :: buildRowsAux pdFallback oraCol kis (i + 1) trs

/-- The `rows` list of `run_generator` before sorting. -/
def buildRows (pdFallback : String → Option DateTime) (oraCol : Bool)
    (ast : List AstRow) (kis : List KeyInfo) : List TxRow :=
  buildRowsAux pdFallback oraCol kis 0 ast

/-- The `(year, …, second)` lexicographic key type of a datetime. -/
abbrev DTKey := ℕ ×ₗ ℕ ×ₗ ℕ ×ₗ ℕ ×ₗ ℕ ×ₗ ℕ

/-- Sort key of `rows.sort(key=lambda r: (r["client"], r["data"]))`.
Python's sort is stable; a stable sort by a key equals any sort by that key
extended with the element's original position as the final tiebreaker, so
the ghost `idx` (strictly increasing along `rows`) is appended to embed the
stable sort as a sort by an injective key. -/
def rowKey (r : TxRow) : String ×ₗ (DTKey ×ₗ ℕ) :=
  toLex (r.client, toLex (r.data.key, r.idx))

/-- Boolean comparison for the global `(client, data)` sort. -/
def leRow (a b : TxRow) : Bool := decide (rowKey a ≤ rowKey b)

/-- Sort key of the per-group `grp_list.sort(key=lambda r: r["data"])`,
again with the ghost `idx` as stability tiebreaker (the group list comes
out of the global sort, where equal-timestamp rows of one client are
already in `idx` order, so this models the stable sort exactly). -/
def dataKey (r : TxRow) : DTKey ×ₗ ℕ := toLex (r.data.key, r.idx)

/-- Boolean comparison for the per-group timestamp sort. -/
def leRowData (a b : TxRow) : Bool := decide (dataKey a ≤ dataKey b)

/-- Insert into a sorted list, keeping order. -/
def insertSorted (le : TxRow → TxRow → Bool) (a : TxRow) : List TxRow → List TxRow
  | [] => [a]
  | b :: bs => if le a b then a :: b :: bs else b :: insertSorted le a bs

/-- Model of Python's `list.sort(key=...)`. Python's sort is stable, and a
stable sort by a key `k` produces the same list as any correct sort by the
injective key `(k, original position)`; the comparisons `leRow` and
`leRowData` embed the ghost original position as final tiebreaker, so any
correct sorting algorithm yields the same list — insertion sort is used
because its structural recursion evaluates inside the kernel. -/
def pySort (le : TxRow → TxRow → Bool) : List TxRow → List TxRow
  | [] => []
  | a :: as => insertSorted le a (pySort le as)

/-- `itertools.groupby(rows, key=lambda r: r["client"])`: maximal
consecutive runs of equal client, in order. -/
def groupByClient : List TxRow → List (String × List TxRow)
  | [] => []
  | r :: rs =>
    match groupByClient rs with
    | [] => [(r.client, [r])]
    | (c, g) :: rest =>
      if r.client = c then (c, r :: g) :: rest
      else (r.client, [r]) :: (c, g) :: rest

/-- One entry of the `tx_rows` list handed to the renderer (lines
405-413), with the ghost `idx`. -/
structure TxIn where
  site : String
  tid : String
  produs : String
  valoare : ℚ
  data : DateTime
  idx : Nat
deriving DecidableEq, Repr

/-- One written transaction line of the rendered sheet: the five cell
values of lines 240-252 (`dataCell` is the text written into the timestamp
cell, empty for the `datetime.min` sentinel). `data` and `idx` are ghost
copies used to state ordering. -/
structure RenderedRow where
  site : String
  tid : String
  produs : String
  valoare : ℚ
  dataCell : String
  data : DateTime
  idx : Nat
deriving DecidableEq, Repr

/-- A rendered per-client sheet: header metadata after placeholder
substitution, the transaction lines in written order, and the value put in
the total cell. -/
structure RenderedDoc where
  fname : String
  client : String
  rc : String
  cui : String
  adresa : String
  colectari : String
  headerDate : String
  txs : List RenderedRow
  total : ℚ
deriving DecidableEq, Repr

/-- Lines 240-252: the five cells written for one transaction (the
timestamp cell gets `""` for the `datetime.min` sentinel). -/
def renderedOfTxIn (tx : TxIn) : RenderedRow :=
  { site := tx.site, tid := tx.tid, produs := tx.produs, valoare := tx.valoare,
    dataCell := if tx.data = dtMin then "" else fmtYMDHMS tx.data,
    data := tx.data, idx := tx.idx }

/-- `fill_workbook_for_client` (generate_orders.py lines 182-276): write
one row per transaction in list order (amount cell gets the raw float
value, display format `0.00`; timestamp cell gets the formatted datetime or
`""` for the sentinel), and put the running sum of the raw amounts —
unrounded — into the total cell. -/
def fill_workbook_for_client (client rc cui adresa : String) (txRows : List TxIn)
    (colectari headerDate fname : String) : RenderedDoc :=
  { fname := fname, client := client, rc := rc, cui := cui, adresa := adresa,
    colectari := colectari, headerDate := headerDate,
    txs := txRows.map renderedOfTxIn,
    total := (txRows.map (·.valoare)).sum }

/-- Line 416: keep only alphanumerics, spaces, hyphens and underscores of
the client name, then strip. -/
def safeClient (client : String) : String :=
  pyStrip (String.mk (client.toList.filter fun ch =>
    ch.isAlphanum || ch = ' ' || ch = '-' || ch = '_'))

/-- The `abs(total) < 1e-9` exclusion threshold of line 392. -/
def eps : ℚ := Rat.divInt 1 1000000000

/-- Python `min` over a nonempty list of datetimes (first minimum wins). -/
def dtFoldMin (d : DateTime) (ds : List DateTime) : DateTime :=
  ds.foldl (fun a b => if b.key < a.key then b else a) d

/-- Python `max` over a nonempty list of datetimes (first maximum wins). -/
def dtFoldMax (d : DateTime) (ds : List DateTime) : DateTime :=
  ds.foldl (fun a b => if a.key < b.key then b else a) d

/-- Lines 373-380: the shared collection-period string
`min(data)–max(data)` over the reconciled rows, skipping the
`datetime.min` sentinel; empty when no row has a valid timestamp. -/
def colectariText (rows : List TxRow) : String :=
  match (rows.filter (fun r => r.data ≠ dtMin)).map (·.data) with
  | [] => ""
  | d :: ds => fmtDMY (dtFoldMin d ds) ++ " - " ++ fmtDMY (dtFoldMax d ds)

/-- Lines 405-413: one entry of `tx_rows` from a reconciled row; an empty
site is replaced by the client name. -/
def txInOfRow (client : String) (r : TxRow) : TxIn :=
  { site := if r.site = "" then client else r.site, tid := r.tid,
    produs := r.produs, valoare := r.valoare, data := r.data, idx := r.idx }

/-- The per-client body of the loop at lines 388-430: compute the group's
raw total, skip the client when `abs(total) < 1e-9`, otherwise take the
header metadata from the group's first row, re-sort the group by
timestamp, build `tx_rows` (empty site falls back to the client name) and
render. -/
def docOfGroup (colectari headerDate : String) (p : String × List TxRow) :
    Option RenderedDoc :=
  let total := (p.2.map (·.valoare)).sum
  if |total| < eps then none
  else
    match p.2 with
    | [] => none
    | first :: _ =>
      let sortedG := pySort leRowData p.2
      some (fill_workbook_for_client p.1 first.reg first.cui first.adresa
        (sortedG.map (txInOfRow p.1))
        colectari headerDate ("Ordin - " ++ safeClient p.1 ++ ".xlsx"))

/-- The reconciled, globally sorted transaction list (lines 333-368). -/
def reconcileRows (pdFallback : String → Option DateTime) (oraCol : Bool)
    (ast : List AstRow) (siteCol : Bool) (key : List KeyRowRaw) : List TxRow :=
  pySort leRow (buildRows pdFallback oraCol ast (keyInfos siteCol key))

/-- The consecutive per-client groups of the sorted rows (line 388). -/
def clientGroups (pdFallback : String → Option DateTime) (oraCol : Bool)
    (ast : List AstRow) (siteCol : Bool) (key : List KeyRowRaw) :
    List (String × List TxRow) :=
  groupByClient (reconcileRows pdFallback oraCol ast siteCol key)

/-- The documents placed in the output archive, in client-group order
(lines 367-430; the archive step at 433-437 packs exactly the files the
loop wrote into the fresh `out_dir`). -/
def genDocs (pdFallback : String → Option DateTime) (now : DateTime) (oraCol : Bool)
    (ast : List AstRow) (siteCol : Bool) (key : List KeyRowRaw) : List RenderedDoc :=
  let sorted := reconcileRows pdFallback oraCol ast siteCol key
  (groupByClient sorted).filterMap
    (docOfGroup (colectariText sorted) (ro_month_upper now))

/-- Outcome of `run_generator`: its boolean return value (`ok_any`, or
`True` on the empty-input early exit) and the archive contents. -/
structure GenResult where
  ok : Bool
  docs : List RenderedDoc
deriving DecidableEq, Repr

/-- `run_generator` (generate_orders.py lines 281-439). When no transaction
survives the terminal-id match it writes an *empty* archive and returns
`True` (lines 361-365); otherwise it renders one document per qualifying
client group and returns whether any document was produced (the CLI turns
`False` into exit code 1). `now` stands for `datetime.now()`,
`pdFallback` for the pandas date parser, `oraCol`/`siteCol` for the
presence of the optional time and site columns. -/
def run_generator (pdFallback : String → Option DateTime) (now : DateTime)
    (oraCol : Bool) (ast : List AstRow) (siteCol : Bool) (key : List KeyRowRaw) :
    GenResult :=
  let rows := buildRows pdFallback oraCol ast (keyInfos siteCol key)
  if rows.isEmpty then { ok := true, docs := [] }
  else
    let docs := genDocs pdFallback now oraCol ast siteCol key
    { ok := !docs.isEmpty, docs := docs }

/-! ## Shared lemmas about the pipeline -/

/-- Rounding to 2 decimal places, as the specification's inclusion and
total claims phrase it (the script itself never rounds stored values). -/
def round2 (q : ℚ) : ℚ := (round (q * 100) : ℤ) / 100

theorem leRow_trans : ∀ a b c : TxRow, leRow a b → leRow b c → leRow a c := by
  intro a b c hab hbc
  simp only [leRow, decide_eq_true_eq] at hab hbc ⊢
  exact le_trans hab hbc

theorem leRow_total : ∀ a b : TxRow, leRow a b || leRow b a := by
  intro a b
  simp only [leRow, Bool.or_eq_true, decide_eq_true_eq]
  exact le_total _ _

theorem leRowData_trans : ∀ a b c : TxRow, leRowData a b → leRowData b c → leRowData a c := by
  intro a b c hab hbc
  simp only [leRowData, decide_eq_true_eq] at hab hbc ⊢
  exact le_trans hab hbc

theorem leRowData_total : ∀ a b : TxRow, leRowData a b || leRowData b a := by
  intro a b
  simp only [leRowData, Bool.or_eq_true, decide_eq_true_eq]
  exact le_total _ _

theorem insertSorted_perm (le : TxRow → TxRow → Bool) (a : TxRow) :
    ∀ l : List TxRow, List.Perm (insertSorted le a l) (a :: l) := by
  intro l
  induction l with
  | nil => exact List.Perm.refl _
  | cons b bs ih =>
    rw [insertSorted]
    by_cases h : le a b
    · rw [if_pos h]
    · rw [if_neg h]
      exact (ih.cons b).trans (List.Perm.swap a b bs)

theorem pySort_perm (le : TxRow → TxRow → Bool) :
    ∀ l : List TxRow, List.Perm (pySort le l) l := by
  intro l
  induction l with
  | nil => exact List.Perm.refl _
  | cons a as ih => exact (insertSorted_perm le a _).trans (ih.cons a)

theorem mem_pySort {le : TxRow → TxRow → Bool} {l : List TxRow} {x : TxRow} :
    x ∈ pySort le l ↔ x ∈ l :=
  (pySort_perm le l).mem_iff

theorem insertSorted_pairwise {le : TxRow → TxRow → Bool}
    (htrans : ∀ a b c, le a b → le b c → le a c)
    (total : ∀ a b, le a b || le b a) (a : TxRow) :
    ∀ {l : List TxRow}, l.Pairwise (fun x y => le x y) →
      (insertSorted le a l).Pairwise (fun x y => le x y) := by
  intro l
  induction l with
  | nil => intro _; simp [insertSorted]
  | cons b bs ih =>
    intro h
    rw [insertSorted]
    by_cases hab : le a b
    · rw [if_pos hab]
      refine List.Pairwise.cons ?_ h
      intro x hx
      rcases List.mem_cons.mp hx with rfl | hx
      · exact hab
      · exact htrans a b x hab (List.rel_of_pairwise_cons h hx)
    · rw [if_neg hab]
      have hba : le b a := by
        have hor := total a b
        simp only [Bool.or_eq_true] at hor
        rcases hor with h1 | h1
        · exact absurd h1 hab
        · exact h1
      refine List.Pairwise.cons ?_ (ih (List.Pairwise.of_cons h))
      intro x hx
      rcases List.mem_cons.mp ((insertSorted_perm le a bs).mem_iff.mp hx) with rfl | hx
      · exact hba
      · exact List.rel_of_pairwise_cons h hx

theorem pySort_pairwise {le : TxRow → TxRow → Bool}
    (htrans : ∀ a b c, le a b → le b c → le a c)
    (total : ∀ a b, le a b || le b a) :
    ∀ l : List TxRow, (pySort le l).Pairwise (fun x y => le x y) := by
  intro l
  induction l with
  | nil => simp [pySort]
  | cons a as ih => exact insertSorted_pairwise htrans total a ih

/-- Every group `itertools.groupby` yields is a nonempty sublist of the
input whose members all carry the group's key. -/
theorem groupByClient_mem : ∀ {l : List TxRow} {p : String × List TxRow},
    p ∈ groupByClient l → p.2 ≠ [] ∧ p.2.Sublist l ∧ ∀ r ∈ p.2, r.client = p.1 := by
  intro l
  induction l with
  | nil => intro p hp; simp [groupByClient] at hp
  | cons r rs ih =>
    intro p hp
    cases hgr : groupByClient rs with
    | nil =>
      simp only [groupByClient, hgr] at hp
      simp only [List.mem_singleton] at hp
      subst hp
      exact ⟨by simp, (List.nil_sublist rs).cons₂ r, by simp⟩
    | cons q qs =>
      obtain ⟨c, g⟩ := q
      by_cases hcl : r.client = c
      · simp only [groupByClient, hgr, if_pos hcl] at hp
        rcases List.mem_cons.mp hp with h | h
        · subst h
          have hq : (c, g) ∈ groupByClient rs := by rw [hgr]; exact List.mem_cons_self _ _
          obtain ⟨-, hsub, hmem⟩ := ih hq
          exact ⟨by simp, hsub.cons₂ r, by
            intro x hx
            rcases List.mem_cons.mp hx with hx | hx
            · subst hx; exact hcl
            · exact hmem x hx⟩
        · have hq : p ∈ groupByClient rs := by rw [hgr]; exact List.mem_cons_of_mem _ h
          obtain ⟨hne, hsub, hmem⟩ := ih hq
          exact ⟨hne, hsub.cons r, hmem⟩
      · simp only [groupByClient, hgr, if_neg hcl] at hp
        rcases List.mem_cons.mp hp with h | h
        · subst h
          exact ⟨by simp, (List.nil_sublist rs).cons₂ r, by simp⟩
        · have hq : p ∈ groupByClient rs := by rw [hgr]; exact h
          obtain ⟨hne, hsub, hmem⟩ := ih hq
          exact ⟨hne, hsub.cons r, hmem⟩

theorem mkTxRow_idx {pdF : String → Option DateTime} {oraCol : Bool} {kis : List KeyInfo}
    {i : Nat} {tr : AstRow} {row : TxRow}
    (h : mkTxRow pdF oraCol kis i tr = some row) : row.idx = i := by
  simp only [mkTxRow] at h
  cases hk : keyMapLookup kis (pyStrip tr.tid) with
  | none => rw [hk] at h; cases h
  | some km =>
    rw [hk] at h
    simp only [Option.some.injEq] at h
    subst h
    rfl

/-- `mkTxRow` on a matched terminal id, spelled out. -/
theorem mkTxRow_eq (pdF : String → Option DateTime) (oraCol : Bool) (kis : List KeyInfo)
    (i : Nat) (tr : AstRow) (km : KeyInfo)
    (hk : keyMapLookup kis (pyStrip tr.tid) = some km) :
    mkTxRow pdF oraCol kis i tr = some
      { client := km.nume, tid := pyStrip tr.tid,
        site := if km.site ≠ "" then km.site else pyStrip tr.site,
        produs := pyStrip tr.produs, cui := km.cui, reg := km.reg, adresa := km.adresa,
        valoare := parse_amount tr.suma,
        data := parse_datetime pdF tr.dataRaw (if oraCol then some tr.ora else none),
        idx := i } := by
  simp only [mkTxRow]
  rw [hk]

theorem buildRowsAux_idx_ge (pdF : String → Option DateTime) (oraCol : Bool)
    (kis : List KeyInfo) : ∀ (i : Nat) (l : List AstRow) (r : TxRow),
    r ∈ buildRowsAux pdF oraCol kis i l → i ≤ r.idx := by
  intro i l
  induction l generalizing i with
  | nil => intro r hr; simp [buildRowsAux] at hr
  | cons tr trs ih =>
    intro r hr
    rw [buildRowsAux] at hr
    cases hm : mkTxRow pdF oraCol kis i tr with
    | none =>
      rw [hm] at hr
      exact le_trans (Nat.le_succ i) (ih (i + 1) r hr)
    | some row =>
      rw [hm] at hr
      rcases List.mem_cons.mp hr with h | h
      · subst h; rw [mkTxRow_idx hm]
      · exact le_trans (Nat.le_succ i) (ih (i + 1) r h)

/-- The ghost indices along `rows` are strictly increasing. -/
theorem buildRowsAux_idx_pairwise (pdF : String → Option DateTime) (oraCol : Bool)
    (kis : List KeyInfo) : ∀ (i : Nat) (l : List AstRow),
    (buildRowsAux pdF oraCol kis i l).Pairwise (fun a b => a.idx < b.idx) := by
  intro i l
  induction l generalizing i with
  | nil => simp [buildRowsAux]
  | cons tr trs ih =>
    rw [buildRowsAux]
    cases hm : mkTxRow pdF oraCol kis i tr with
    | none => exact ih (i + 1)
    | some row =>
      refine List.Pairwise.cons ?_ (ih (i + 1))
      intro b hb
      have h1 : row.idx = i := mkTxRow_idx hm
      have h2 : i + 1 ≤ b.idx := buildRowsAux_idx_ge pdF oraCol kis (i + 1) trs b hb
      omega

/-- A matched transaction always contributes a row to `rows`, with the
fields `mkTxRow` assigns (in particular whatever timestamp —
`datetime.min` included — `parse_datetime` produced). -/
theorem buildRowsAux_mem (pdF : String → Option DateTime) (oraCol : Bool)
    (kis : List KeyInfo) : ∀ (i : Nat) (l : List AstRow) {tr : AstRow}, tr ∈ l →
    ∀ {km : KeyInfo}, keyMapLookup kis (pyStrip tr.tid) = some km →
    ∃ row ∈ buildRowsAux pdF oraCol kis i l,
      row.client = km.nume ∧ row.tid = pyStrip tr.tid ∧
      row.site = (if km.site ≠ "" then km.site else pyStrip tr.site) ∧
      row.valoare = parse_amount tr.suma ∧
      row.data = parse_datetime pdF tr.dataRaw (if oraCol then some tr.ora else none) ∧
      row.cui = km.cui ∧ row.reg = km.reg ∧ row.adresa = km.adresa := by
  intro i l
  induction l generalizing i with
  | nil => intro tr h; cases h
  | cons hd tl ih =>
    intro tr htr km hk
    rw [buildRowsAux]
    rcases List.mem_cons.mp htr with heq | hmem
    · subst heq
      rw [mkTxRow_eq pdF oraCol kis i tr km hk]
      exact ⟨_, List.mem_cons_self _ _, rfl, rfl, rfl, rfl, rfl, rfl, rfl, rfl⟩
    · cases hm : mkTxRow pdF oraCol kis i hd with
      | none => exact ih (i + 1) hmem hk
      | some row =>
        obtain ⟨row', hr', hf⟩ := ih (i + 1) hmem hk
        exact ⟨row', List.mem_cons_of_mem _ hr', hf⟩

/-- The archive contents of `run_generator` are exactly `genDocs` (the
early exit for an empty `rows` list coincides with `genDocs` on it). -/
theorem run_generator_docs (pdF : String → Option DateTime) (now : DateTime)
    (oraCol : Bool) (ast : List AstRow) (siteCol : Bool) (key : List KeyRowRaw) :
    (run_generator pdF now oraCol ast siteCol key).docs =
      genDocs pdF now oraCol ast siteCol key := by
  unfold run_generator
  cases h : (buildRows pdF oraCol ast (keyInfos siteCol key)).isEmpty with
  | true =>
    have hz : buildRows pdF oraCol ast (keyInfos siteCol key) = [] :=
      List.isEmpty_iff.mp h
    simp [genDocs, reconcileRows, hz, groupByClient]
  | false => simp [h]

/-- What it takes for the per-client loop body to emit a document. -/
theorem docOfGroup_some_iff {colectari headerDate : String} {p : String × List TxRow}
    {d : RenderedDoc} :
    docOfGroup colectari headerDate p = some d ↔
      ¬ |(p.2.map (·.valoare)).sum| < eps ∧
      ∃ first rest, p.2 = first :: rest ∧
        d = fill_workbook_for_client p.1 first.reg first.cui first.adresa
              ((pySort leRowData p.2).map (txInOfRow p.1))
              colectari headerDate ("Ordin - " ++ safeClient p.1 ++ ".xlsx") := by
  obtain ⟨c, l⟩ := p
  simp only [docOfGroup]
  by_cases h : |(l.map (·.valoare)).sum| < eps
  · simp [h]
  · cases l with
    | nil => simp [h]
    | cons f r =>
      rw [if_neg h]
      constructor
      · intro hs
        simp only [Option.some.injEq] at hs
        exact ⟨h, f, r, rfl, hs.symm⟩
      · rintro ⟨-, first, rest, hcons, hd⟩
        injection hcons with h1 h2
        subst h1
        subst h2
        exact congrArg some hd.symm

/-- Archive membership, unfolded to the per-group loop body. -/
theorem mem_genDocs {pdF : String → Option DateTime} {now : DateTime} {oraCol : Bool}
    {ast : List AstRow} {siteCol : Bool} {key : List KeyRowRaw} {d : RenderedDoc} :
    d ∈ genDocs pdF now oraCol ast siteCol key ↔
    ∃ p ∈ clientGroups pdF oraCol ast siteCol key,
      docOfGroup (colectariText (reconcileRows pdF oraCol ast siteCol key))
        (ro_month_upper now) p = some d := by
  simp [genDocs, clientGroups, List.mem_filterMap]

theorem mkTxRow_none_iff {pdF : String → Option DateTime} {oraCol : Bool}
    {kis : List KeyInfo} {i : Nat} {tr : AstRow} :
    mkTxRow pdF oraCol kis i tr = none ↔ keyMapLookup kis (pyStrip tr.tid) = none := by
  simp only [mkTxRow]
  cases keyMapLookup kis (pyStrip tr.tid) <;> simp

/-! ## Concrete fixtures for counterexamples and witnesses -/

/-- A pandas fallback that never parses (the fixtures use dates that either
match the `strptime` cascade or are garbage everywhere). -/
def pdNone : String → Option DateTime := fun _ => none

/-- A fixed run date standing in for `datetime.now()`. -/
def nowFeb : DateTime := ⟨2024, 2, 1, 0, 0, 0⟩

def keyNeg : KeyRowRaw := ⟨"1", "NEG SRL", "C1", "R1", "A1", ""⟩

def astNeg : AstRow := ⟨"1", "", "P", .num (-5), .str "05.01.2024", ""⟩

def astUnknown : AstRow := ⟨"999", "", "P", .num 10, .str "05.01.2024", ""⟩

def astGarbage : AstRow := ⟨"1", "", "P", .num 5, .str "garbage", ""⟩

def keyTid123 : KeyRowRaw := ⟨"123", "C SRL", "", "", "", ""⟩

def astTid1230 : AstRow := ⟨"123.0", "", "", .num 5, .str "05.01.2024", ""⟩

def keyTid1230 : KeyRowRaw := ⟨"123.0", "C SRL", "", "", "", ""⟩

def astTid123 : AstRow := ⟨"123", "", "", .num 5, .str "05.01.2024", ""⟩

def keySite : KeyRowRaw := ⟨"7", "SC X", "", "", "", ""⟩

def astSite : AstRow := ⟨"7", "LOGSITE", "", .num 3, .str "05.01.2024", ""⟩

def keyTiny : KeyRowRaw := ⟨"9", "T SRL", "", "", "", ""⟩

def astTiny : AstRow := ⟨"9", "", "", .num (Rat.divInt 1 250), .str "05.01.2024", ""⟩

def keyAcme : KeyRowRaw := ⟨"100", "Acme SRL", "RO123", "J40", "Str. X", "Site A"⟩

def astAcme1 : AstRow := ⟨"100", "S1", "OpA", .num 30, .str "2024-01-05 09:00:00", ""⟩

def astAcme2 : AstRow := ⟨"100", "S1", "OpB", .num (Rat.divInt 41 2), .str "2024-01-03 14:00:00", ""⟩

/-! ## Claim C1 -/

/-- C1 counterexample: the claim says a client group is materialized iff
its total rounded to 2 decimals is strictly positive (negative totals
excluded); but for a single transaction of −5 — total −5, not positive —
the code emits a document, because line 392 only skips `abs(total) < 1e-9`. -/
theorem c1_counterexample :
    ((run_generator pdNone nowFeb false [astNeg] false [keyNeg]).docs.map
        fun d => (d.client, d.total)) = [("NEG SRL", -5)] ∧
    ¬ 0 < round2 (-5) := by
  refine ⟨by with_unfolding_all rfl, ?_⟩
  exact of_decide_eq_true (by with_unfolding_all rfl)

/-- C1 amended: a document for client `c` is in the archive iff
reconciliation produced a group for `c` whose *raw, unrounded* total
satisfies `|total| ≥ 1e-9`; zero (within 1e-9) totals are excluded but
negative totals are rendered. -/
theorem c1_amended_inclusion (pdF : String → Option DateTime) (now : DateTime)
    (oraCol : Bool) (ast : List AstRow) (siteCol : Bool) (key : List KeyRowRaw)
    (c : String) :
    (∃ d ∈ (run_generator pdF now oraCol ast siteCol key).docs, d.client = c) ↔
    (∃ p ∈ clientGroups pdF oraCol ast siteCol key,
        p.1 = c ∧ ¬ |(p.2.map (·.valoare)).sum| < eps) := by
  rw [run_generator_docs]
  constructor
  · rintro ⟨d, hd, hdc⟩
    obtain ⟨p, hp, hsome⟩ := mem_genDocs.mp hd
    obtain ⟨htot, first, rest, hcons, hdef⟩ := docOfGroup_some_iff.mp hsome
    refine ⟨p, hp, ?_, htot⟩
    rw [← hdc, hdef]
    rfl
  · rintro ⟨p, hp, hpc, htot⟩
    obtain ⟨hne, -, -⟩ := groupByClient_mem (by simpa [clientGroups] using hp)
    obtain ⟨first, rest, hcons⟩ := List.exists_cons_of_ne_nil hne
    exact ⟨_, mem_genDocs.mpr
      ⟨p, hp, docOfGroup_some_iff.mpr ⟨htot, first, rest, hcons, rfl⟩⟩, hpc⟩

/-! ## Claim C2 -/

/-- C2 counterexample: with a single transaction on a terminal unknown to
KEY, zero transactions survive the match; the claim says the pipeline then
fails with `EmptyResultError`, but the code writes an *empty archive* and
returns success (`True`) — lines 361-365; no `EmptyResultError` exists
anywhere in the repository. -/
theorem c2_counterexample :
    run_generator pdNone nowFeb false [astUnknown] false [keyNeg] =
      { ok := true, docs := [] } := by rfl

/-- C2 amended: when zero transactions survive the terminal-id match the
pipeline emits an empty archive and *succeeds*; otherwise its boolean
result is success exactly when at least one document was produced (the CLI
maps `False` to exit code 1) — there is no `EmptyResultError` and no
distinguishable sub-cause. -/
theorem c2_amended_failure_signal (pdF : String → Option DateTime) (now : DateTime)
    (oraCol : Bool) (ast : List AstRow) (siteCol : Bool) (key : List KeyRowRaw) :
    ((run_generator pdF now oraCol ast siteCol key).ok = true ↔
      ((run_generator pdF now oraCol ast siteCol key).docs ≠ [] ∨
        buildRows pdF oraCol ast (keyInfos siteCol key) = [])) ∧
    (buildRows pdF oraCol ast (keyInfos siteCol key) = [] →
      (run_generator pdF now oraCol ast siteCol key).docs = []) := by
  unfold run_generator
  cases h : (buildRows pdF oraCol ast (keyInfos siteCol key)).isEmpty with
  | true =>
    have hz : buildRows pdF oraCol ast (keyInfos siteCol key) = [] :=
      List.isEmpty_iff.mp h
    simp [hz]
  | false =>
    have hz : buildRows pdF oraCol ast (keyInfos siteCol key) ≠ [] := by
      intro he
      rw [he] at h
      simp at h
    simp [h, hz]

/-- C2 witness: the amended statement applied to the concrete
unknown-terminal run. -/
theorem c2_witness :
    (run_generator pdNone nowFeb false [astUnknown] false [keyNeg]).docs = [] :=
  (c2_amended_failure_signal pdNone nowFeb false [astUnknown] false [keyNeg]).2 (by decide)

/-! ## Claim C3 -/

/-- C3 counterexample: a matched transaction whose date string parses
nowhere is *not* dropped: it appears as a rendered row (with an empty
timestamp cell) and its amount 5 is the document's total. -/
theorem c3_counterexample :
    ((run_generator pdNone nowFeb false [astGarbage] false [keyNeg]).docs.map
        fun d => (d.total, d.txs.map fun t => (t.tid, t.valoare, t.dataCell))) =
      [(5, [("1", 5, "")])] := by with_unfolding_all rfl

/-- C3 amended: a record with an unparsable timestamp is kept, not
dropped — every matched transaction contributes a row whose timestamp is
whatever `parse_datetime` returned and whose amount counts towards the
group; an unparsable date (all `strptime` formats and the pandas fallback
failing) yields the sentinel `datetime.min`, under which the record sorts
first and its date cell renders empty. -/
theorem c3_amended_sentinel :
    (∀ (pdF : String → Option DateTime) (oraCol : Bool) (kis : List KeyInfo)
        (ast : List AstRow) (tr : AstRow), tr ∈ ast →
      ∀ km, keyMapLookup kis (pyStrip tr.tid) = some km →
      ∃ row ∈ buildRows pdF oraCol ast kis,
        row.data = parse_datetime pdF tr.dataRaw (if oraCol then some tr.ora else none) ∧
        row.valoare = parse_amount tr.suma ∧ row.client = km.nume) ∧
    (∀ (pdF : String → Option DateTime) (s : String) (t : Option String),
      tryFormats (String.mk (stripCs s.toList)) = none →
      pdF (String.mk (stripCs s.toList)) = none →
      parse_datetime pdF (.str s) t = dtMin) := by
  constructor
  · intro pdF oraCol kis ast tr htr km hk
    obtain ⟨row, hrow, h1, h2, h3, h4, h5, h6, h7, h8⟩ :=
      buildRowsAux_mem pdF oraCol kis 0 ast htr hk
    exact ⟨row, hrow, h5, h4, h1⟩
  · intro pdF s t h1 h2
    simp only [parse_datetime, dateFromString, h1, h2]

/-- C3 witness: the amended statement at the concrete garbage-date run. -/
theorem c3_witness :
    parse_datetime pdNone (.str "garbage") none = dtMin ∧
    ∃ row ∈ buildRows pdNone false [astGarbage] (keyInfos false [keyNeg]),
      row.data = parse_datetime pdNone astGarbage.dataRaw none ∧
      row.valoare = parse_amount astGarbage.suma ∧ row.client = "NEG SRL" := by
  constructor
  · exact c3_amended_sentinel.2 pdNone "garbage" none (by decide) rfl
  · obtain ⟨row, hrow, hf⟩ := c3_amended_sentinel.1 pdNone false
      (keyInfos false [keyNeg]) [astGarbage] astGarbage (by decide)
      ⟨"1", "NEG SRL", "C1", "R1", "A1", ""⟩ (by decide)
    exact ⟨row, hrow, hf.1, hf.2.1, hf.2.2⟩

/-! ## Claim C4 -/

/-- C4 counterexample: the claim says the join key is numeric-suffix
normalized so that `"123.0"` matches `"123"` (and vice versa); in the code
both sides are only `str(..).strip()`-normalized, so neither direction
matches and the transaction is dropped. -/
theorem c4_counterexample :
    buildRows pdNone false [astTid1230] (keyInfos false [keyTid123]) = [] ∧
    buildRows pdNone false [astTid123] (keyInfos false [keyTid1230]) = [] ∧
    (run_generator pdNone nowFeb false [astTid1230] false [keyTid123]).docs = [] := by
  exact ⟨rfl, rfl, rfl⟩

/-- C4 amended: the join key is normalized by whitespace trimming only
(`str(..).strip()` on both sides); a transaction survives the join exactly
when some KEY row's trimmed terminal id equals the transaction's trimmed
terminal id verbatim — no numeric-suffix stripping happens. -/
theorem c4_amended_join_normalization :
    (∀ (siteCol : Bool) (key : List KeyRowRaw) (tid : String),
      (keyMapLookup (keyInfos siteCol key) tid).isSome ↔
        ∃ kr ∈ key, pyStrip kr.tid = tid) ∧
    (∀ (pdF : String → Option DateTime) (oraCol : Bool) (kis : List KeyInfo)
        (ast : List AstRow),
      (buildRows pdF oraCol ast kis).length =
        (ast.filter fun tr => (keyMapLookup kis (pyStrip tr.tid)).isSome).length) := by
  constructor
  · intro siteCol key tid
    rw [keyMapLookup, List.getLast?_isSome]
    constructor
    · intro hne
      obtain ⟨k, hk⟩ := List.exists_mem_of_ne_nil _ hne
      obtain ⟨hkmem, hkeq⟩ := List.mem_filter.mp hk
      obtain ⟨kr, hkr, hmap⟩ := List.mem_map.mp hkmem
      refine ⟨kr, hkr, ?_⟩
      have : k.tid = tid := by simpa using hkeq
      rw [← this, ← hmap]
    · rintro ⟨kr, hkr, htid⟩
      intro hfil
      rw [List.filter_eq_nil_iff] at hfil
      refine hfil _ (List.mem_map_of_mem _ hkr) ?_
      simpa using htid
  · intro pdF oraCol kis ast
    suffices h : ∀ (i : Nat) (l : List AstRow),
        (buildRowsAux pdF oraCol kis i l).length =
          (l.filter fun tr => (keyMapLookup kis (pyStrip tr.tid)).isSome).length by
      exact h 0 ast
    intro i l
    induction l generalizing i with
    | nil => simp [buildRowsAux]
    | cons tr trs ih =>
      rw [buildRowsAux]
      cases hm : mkTxRow pdF oraCol kis i tr with
      | none =>
        have hk : keyMapLookup kis (pyStrip tr.tid) = none := mkTxRow_none_iff.mp hm
        simp [List.filter_cons, hk, ih (i + 1)]
      | some row =>
        have hk : (keyMapLookup kis (pyStrip tr.tid)).isSome := by
          by_contra hc
          rw [Option.not_isSome_iff_eq_none] at hc
          rw [mkTxRow_none_iff.mpr hc] at hm
          cases hm
        simp [List.filter_cons, hk, ih (i + 1)]

/-! ## Claim C8 -/

/-- C8 counterexample: the claim says the total cell equals the sum of the
amount cells *each rounded to 2 decimals* within 1e-9; for a single amount
of 0.004 the written total is 0.004 while the rounded amount sums to 0 —
off by far more than 1e-9, because the code stores raw unrounded floats
(rounding exists only as the `"0.00"` display format). -/
theorem c8_counterexample :
    ((run_generator pdNone nowFeb false [astTiny] false [keyTiny]).docs.map
        fun d => (d.total, d.txs.map (·.valoare))) =
      [(Rat.divInt 1 250, [Rat.divInt 1 250])] ∧
    ¬ |Rat.divInt 1 250 - round2 (Rat.divInt 1 250)| < eps := by
  refine ⟨by with_unfolding_all rfl, ?_⟩
  exact of_decide_eq_true (by with_unfolding_all rfl)

/-- C8 amended: in every rendered document the total cell holds the exact
(unrounded) sum of the values written to the amount cells; the 2-decimal
appearance is purely the `"0.00"` number format. -/
theorem c8_amended_total_exact (client rc cui adresa : String) (txRows : List TxIn)
    (colectari headerDate fname : String) :
    (fill_workbook_for_client client rc cui adresa txRows colectari headerDate fname).total =
      ((fill_workbook_for_client client rc cui adresa txRows colectari
          headerDate fname).txs.map (·.valoare)).sum := by
  simp [fill_workbook_for_client, renderedOfTxIn, List.map_map, Function.comp_def]

/-! ## Claim C9 -/

/-- C9 counterexample: the claim says the rendered site value is sourced
from KEY, not from the transaction log; but when the KEY table carries no
site column (`_SITE` is forced to `""`, line 319) — or the matched record's
site is blank — the code (line 343) takes the transaction log's site
column: here the rendered site is the log's `"LOGSITE"`. -/
theorem c9_counterexample :
    ((run_generator pdNone nowFeb false [astSite] false [keySite]).docs.map
        fun d => d.txs.map (·.site)) = [["LOGSITE"]] ∧
    pyStrip astSite.site = "LOGSITE" :=
  ⟨by with_unfolding_all rfl, rfl⟩

/-- C9 amended: the rendered site is the matched KEY record's site only
when that is nonempty; otherwise it falls back to the transaction row's own
site column, and a still-empty site is rendered as the client name. -/
theorem c9_amended_site_fallback :
    (∀ (pdF : String → Option DateTime) (oraCol : Bool) (kis : List KeyInfo)
        (ast : List AstRow) (tr : AstRow), tr ∈ ast →
      ∀ km, keyMapLookup kis (pyStrip tr.tid) = some km →
      ∃ row ∈ buildRows pdF oraCol ast kis,
        row.site = (if km.site ≠ "" then km.site else pyStrip tr.site)) ∧
    (∀ (pdF : String → Option DateTime) (now : DateTime) (oraCol : Bool)
        (ast : List AstRow) (siteCol : Bool) (key : List KeyRowRaw),
      ∀ d ∈ (run_generator pdF now oraCol ast siteCol key).docs, ∀ rr ∈ d.txs,
      ∃ row ∈ buildRows pdF oraCol ast (keyInfos siteCol key),
        rr.site = (if row.site = "" then d.client else row.site) ∧ rr.idx = row.idx) := by
  constructor
  · intro pdF oraCol kis ast tr htr km hk
    obtain ⟨row, hrow, h1, h2, h3, h4, h5, h6, h7, h8⟩ :=
      buildRowsAux_mem pdF oraCol kis 0 ast htr hk
    exact ⟨row, hrow, h3⟩
  · intro pdF now oraCol ast siteCol key d hd rr hrr
    rw [run_generator_docs] at hd
    obtain ⟨p, hp, hsome⟩ := mem_genDocs.mp hd
    obtain ⟨-, first, rest, -, hdef⟩ := docOfGroup_some_iff.mp hsome
    subst hdef
    obtain ⟨r, hr, hrr_eq⟩ :=
      List.mem_map.mp (by simpa [fill_workbook_for_client, List.map_map] using hrr)
    subst hrr_eq
    have hr2 : r ∈ p.2 := mem_pySort.mp hr
    obtain ⟨-, hsub, -⟩ := groupByClient_mem hp
    have hr3 : r ∈ reconcileRows pdF oraCol ast siteCol key := hsub.subset hr2
    have hr4 : r ∈ buildRows pdF oraCol ast (keyInfos siteCol key) := mem_pySort.mp hr3
    exact ⟨r, hr4, by simp [renderedOfTxIn, txInOfRow, fill_workbook_for_client], rfl⟩

/-- C9 witness: the first amended conjunct at the concrete empty-KEY-site
run, where the fallback produces the log's site. -/
theorem c9_witness :
    ∃ row ∈ buildRows pdNone false [astSite] (keyInfos true [keySite]),
      row.site = "LOGSITE" := by
  obtain ⟨row, hrow, hsite⟩ := c9_amended_site_fallback.1 pdNone false
    (keyInfos true [keySite]) [astSite] astSite (List.mem_singleton.mpr rfl)
    ⟨"7", "SC X", "", "", "", ""⟩ (by rfl)
  refine ⟨row, hrow, ?_⟩
  rw [hsite]
  rfl

/-! ## Claim C6 -/

theorem leRowData_imp {a b : TxRow} (h : leRowData a b) (hne : a.idx ≠ b.idx) :
    dtLE a.data b.data ∧ (a.data = b.data → a.idx < b.idx) := by
  have h' : dataKey a ≤ dataKey b := of_decide_eq_true h
  simp only [dataKey, Prod.Lex.le_iff] at h'
  constructor
  · rcases h' with h' | ⟨heq, -⟩
    · exact le_of_lt h'
    · exact le_of_eq heq
  · intro hdat
    rcases h' with h' | ⟨-, hle⟩
    · exact absurd (hdat ▸ h') (lt_irrefl _)
    · exact lt_of_le_of_ne hle hne

/-- C6: within every rendered document the transaction rows appear in
non-decreasing timestamp order, and rows with equal timestamps keep their
relative order from the input table (the ghost `idx` records the original
row position; both sorts are stable). -/
theorem c6_rows_sorted_stable (pdF : String → Option DateTime) (now : DateTime)
    (oraCol : Bool) (ast : List AstRow) (siteCol : Bool) (key : List KeyRowRaw) :
    ∀ d ∈ (run_generator pdF now oraCol ast siteCol key).docs,
      d.txs.Pairwise
        (fun a b => dtLE a.data b.data ∧ (a.data = b.data → a.idx < b.idx)) := by
  intro d hd
  rw [run_generator_docs] at hd
  obtain ⟨p, hp, hsome⟩ := mem_genDocs.mp hd
  obtain ⟨-, first, rest, -, hdef⟩ := docOfGroup_some_iff.mp hsome
  subst hdef
  have hs : (pySort leRowData p.2).Pairwise (fun x y => leRowData x y) :=
    pySort_pairwise leRowData_trans leRowData_total p.2
  have hrows : (buildRows pdF oraCol ast (keyInfos siteCol key)).Pairwise
      (fun a b => a.idx ≠ b.idx) :=
    (buildRowsAux_idx_pairwise pdF oraCol (keyInfos siteCol key) 0 ast).imp
      (fun h => Nat.ne_of_lt h)
  have hsorted : (reconcileRows pdF oraCol ast siteCol key).Pairwise
      (fun a b => a.idx ≠ b.idx) :=
    ((pySort_perm leRow _).pairwise_iff (fun h => Ne.symm h)).mpr hrows
  obtain ⟨-, hsub, -⟩ := groupByClient_mem hp
  have hgrp : p.2.Pairwise (fun a b => a.idx ≠ b.idx) :=
    List.Pairwise.sublist hsub hsorted
  have hgs : (pySort leRowData p.2).Pairwise (fun a b => a.idx ≠ b.idx) :=
    ((pySort_perm leRowData p.2).pairwise_iff (fun h => Ne.symm h)).mpr hgrp
  have hcomb := hs.and hgs
  simp only [fill_workbook_for_client, List.map_map]
  rw [List.pairwise_map]
  refine hcomb.imp ?_
  rintro a b ⟨hle, hne⟩
  exact leRowData_imp hle hne

/-- A default document, used only to state the C6 witness at a concrete
list position. -/
def dummyDoc : RenderedDoc := ⟨"", "", "", "", "", "", "", [], 0⟩

set_option maxRecDepth 4000 in
/-- C6 witness: the ordering statement on the concrete two-transaction Acme
run (the document lists the 2024-01-03 transaction before 2024-01-05). -/
theorem c6_witness :
    ((run_generator pdNone nowFeb false [astAcme1, astAcme2] true
        [keyAcme]).docs.getD 0 dummyDoc).txs.Pairwise
      (fun a b => dtLE a.data b.data ∧ (a.data = b.data → a.idx < b.idx)) :=
  c6_rows_sorted_stable pdNone nowFeb false [astAcme1, astAcme2] true [keyAcme]
    ((run_generator pdNone nowFeb false [astAcme1, astAcme2] true
        [keyAcme]).docs.getD 0 dummyDoc)
    (of_decide_eq_true (by with_unfolding_all rfl))

/-! ## Claim C10 -/

theorem leRow_imp_same_client {a b : TxRow} (h : leRow a b) (hcl : a.client = b.client) :
    dtLE a.data b.data ∧ (a.data = b.data → a.idx ≤ b.idx) := by
  have h' : rowKey a ≤ rowKey b := of_decide_eq_true h
  simp only [rowKey, Prod.Lex.le_iff] at h'
  rcases h' with h' | ⟨-, h2⟩
  · exact absurd (hcl ▸ h') (lt_irrefl _)
  · constructor
    · rcases h2 with h2 | ⟨heq, -⟩
      · exact le_of_lt h2
      · exact le_of_eq heq
    · intro hdat
      rcases h2 with h2 | ⟨-, hle⟩
      · exact absurd (hdat ▸ h2) (lt_irrefl _)
      · exact hle

/-- C10: each rendered document's header metadata (registration number,
tax id, address) is taken from the KEY data carried by the group's first
row after the global sort — the row minimal in the group with respect to
(timestamp, original input position). -/
theorem c10_header_from_first (pdF : String → Option DateTime) (now : DateTime)
    (oraCol : Bool) (ast : List AstRow) (siteCol : Bool) (key : List KeyRowRaw) :
    ∀ d ∈ (run_generator pdF now oraCol ast siteCol key).docs,
      ∃ p ∈ clientGroups pdF oraCol ast siteCol key, ∃ first rest,
        p.2 = first :: rest ∧ d.client = p.1 ∧
        d.rc = first.reg ∧ d.cui = first.cui ∧ d.adresa = first.adresa ∧
        ∀ r ∈ p.2, dtLE first.data r.data ∧ (first.data = r.data → first.idx ≤ r.idx) := by
  intro d hd
  rw [run_generator_docs] at hd
  obtain ⟨p, hp, hsome⟩ := mem_genDocs.mp hd
  obtain ⟨-, first, rest, hcons, hdef⟩ := docOfGroup_some_iff.mp hsome
  refine ⟨p, hp, first, rest, hcons, ?_, ?_, ?_, ?_, ?_⟩
  · rw [hdef]; rfl
  · rw [hdef]; rfl
  · rw [hdef]; rfl
  · rw [hdef]; rfl
  have hsorted : (reconcileRows pdF oraCol ast siteCol key).Pairwise
      (fun x y => leRow x y) :=
    pySort_pairwise leRow_trans leRow_total _
  obtain ⟨-, hsub, hcl⟩ := groupByClient_mem hp
  have hpw : p.2.Pairwise (fun x y => leRow x y) := List.Pairwise.sublist hsub hsorted
  intro r hr
  have hfirst : first ∈ p.2 := by rw [hcons]; exact List.mem_cons_self _ _
  rw [hcons] at hpw
  rcases List.mem_cons.mp (hcons ▸ hr) with rfl | hr'
  · exact ⟨le_refl _, fun _ => le_refl _⟩
  · exact leRow_imp_same_client (List.rel_of_pairwise_cons hpw hr')
      ((hcl first hfirst).trans (hcl r hr).symm)

/-! ## Claim C5 -/

theorem insertNorm_forall {m : List (String × String)} {k v : String}
    {P : String × String → Prop} (hm : ∀ p ∈ m, P p) (hkv : P (k, v)) :
    ∀ p ∈ insertNorm m k v, P p := by
  intro p hp
  unfold insertNorm at hp
  by_cases hany : m.any (fun q => q.1 == k)
  · rw [if_pos hany] at hp
    obtain ⟨q, hq, hqe⟩ := List.mem_map.mp hp
    by_cases hqk : q.1 == k
    · rw [if_pos hqk] at hqe
      rw [← hqe]
      exact hkv
    · rw [if_neg hqk] at hqe
      rw [← hqe]
      exact hm q hq
  · rw [if_neg hany] at hp
    rcases List.mem_append.mp hp with hp | hp
    · exact hm p hp
    · rw [List.mem_singleton.mp hp]
      exact hkv

theorem insertNorm_keys {m : List (String × String)} {k v : String} (x : String) :
    (∃ p ∈ insertNorm m k v, p.1 = x) ↔ (∃ p ∈ m, p.1 = x) ∨ k = x := by
  unfold insertNorm
  by_cases hany : m.any (fun q => q.1 == k)
  · rw [if_pos hany]
    constructor
    · rintro ⟨p, hp, hpx⟩
      obtain ⟨q, hq, hqe⟩ := List.mem_map.mp hp
      by_cases hqk : q.1 == k
      · right
        rw [if_pos hqk] at hqe
        rw [← hpx, ← hqe]
      · left
        rw [if_neg hqk] at hqe
        exact ⟨q, hq, by rw [← hpx, ← hqe]⟩
    · rintro (⟨p, hp, hpx⟩ | rfl)
      · by_cases hpk : p.1 == k
        · refine ⟨(k, v), List.mem_map.mpr ⟨p, hp, by rw [if_pos hpk]⟩, ?_⟩
          rw [← hpx]
          exact (eq_of_beq hpk).symm
        · exact ⟨p, List.mem_map.mpr ⟨p, hp, by rw [if_neg hpk]⟩, hpx⟩
      · obtain ⟨q, hq, hqk⟩ := List.any_eq_true.mp hany
        exact ⟨(k, v), List.mem_map.mpr ⟨q, hq, by rw [if_pos hqk]⟩, rfl⟩
  · rw [if_neg hany]
    constructor
    · rintro ⟨p, hp, hpx⟩
      rcases List.mem_append.mp hp with hp | hp
      · exact Or.inl ⟨p, hp, hpx⟩
      · right
        rw [List.mem_singleton.mp hp] at hpx
        exact hpx
    · rintro (⟨p, hp, hpx⟩ | rfl)
      · exact ⟨p, List.mem_append_left _ hp, hpx⟩
      · exact ⟨(k, v), List.mem_append_right _ (List.mem_singleton.mpr rfl), rfl⟩

theorem foldl_insertNorm_forall {P : String × String → Prop} :
    ∀ (l : List String) (m : List (String × String)),
      (∀ p ∈ m, P p) → (∀ h ∈ l, P (_norm h, h)) →
      ∀ p ∈ l.foldl (fun m h => insertNorm m (_norm h) h) m, P p := by
  intro l
  induction l with
  | nil =>
    intro m hm _
    simpa using hm
  | cons h t ih =>
    intro m hm hl
    simp only [List.foldl_cons]
    exact ih _ (insertNorm_forall hm (hl h (List.mem_cons_self _ _)))
      (fun x hx => hl x (List.mem_cons_of_mem _ hx))

theorem foldl_insertNorm_keys :
    ∀ (l : List String) (m : List (String × String)) (x : String),
      (∃ p ∈ l.foldl (fun m h => insertNorm m (_norm h) h) m, p.1 = x) ↔
        (∃ p ∈ m, p.1 = x) ∨ ∃ h ∈ l, _norm h = x := by
  intro l
  induction l with
  | nil =>
    intro m x
    simp
  | cons h t ih =>
    intro m x
    simp only [List.foldl_cons]
    rw [ih, insertNorm_keys]
    constructor
    · rintro ((hm | he) | ⟨h2, hh2, hx2⟩)
      · exact Or.inl hm
      · exact Or.inr ⟨h, List.mem_cons_self _ _, he⟩
      · exact Or.inr ⟨h2, List.mem_cons_of_mem _ hh2, hx2⟩
    · rintro (hm | ⟨h2, hh2, hx2⟩)
      · exact Or.inl (Or.inl hm)
      · rcases List.mem_cons.mp hh2 with rfl | hh2
        · exact Or.inl (Or.inr hx2)
        · exact Or.inr ⟨h2, hh2, hx2⟩

/-- Every entry of the `norms` dict is `( _norm h, h)` for a header `h`. -/
theorem normsOf_forall {hs : List String} :
    ∀ p ∈ normsOf hs, p.2 ∈ hs ∧ p.1 = _norm p.2 := by
  unfold normsOf
  exact foldl_insertNorm_forall hs [] (by intro p hp; cases hp)
    (fun h hh => ⟨hh, rfl⟩)

/-- The `norms` dict's key set is the set of normalized headers. -/
theorem normsOf_keys {hs : List String} (x : String) :
    (∃ p ∈ normsOf hs, p.1 = x) ↔ ∃ h ∈ hs, _norm h = x := by
  unfold normsOf
  rw [foldl_insertNorm_keys]
  simp

/-- C5 counterexample: the claim says the fuzzy fallback accepts a header
when the normalized candidate contains the normalized header (containment
in *either* direction); here the normalized header `"terminal"` occurs in
the normalized candidate `"terminal identifier"`, yet the resolver raises
(`none`) because the code (line 71) tests only candidate-inside-header. -/
theorem c5_counterexample :
    occurs (_norm "terminal") (_norm "terminal identifier") = true ∧
    find_col ["terminal"] ["terminal identifier"] = none :=
  ⟨rfl, rfl⟩

/-- C5 amended: the fallback accepts in only one direction — some
candidate's normalized form occurring as a substring of a normalized
header. The resolver succeeds iff some candidate matches some header
exactly after normalization, or some candidate's normalized form is
contained in some normalized header; the returned name is always one of
the actual headers. (Iteration order: candidates outermost; headers in
first-occurrence order of their normalized form, a later duplicate
overwriting the stored original name.) -/
theorem c5_amended_one_directional (hs cs : List String) :
    ((find_col hs cs).isSome = true ↔
      (∃ c ∈ cs, ∃ h ∈ hs, _norm h = _norm c) ∨
      (∃ c ∈ cs, ∃ h ∈ hs, occurs (_norm c) (_norm h) = true)) ∧
    (∀ v, find_col hs cs = some v → v ∈ hs) := by
  constructor
  · unfold find_col
    cases hex : cs.findSome? (fun cand =>
        ((normsOf hs).find? (fun p => p.1 == _norm cand)).map (·.2)) with
    | some v =>
      simp only [hex]
      simp only [Option.isSome_some, true_iff]
      left
      obtain ⟨c, hc, hfc⟩ := List.exists_of_findSome?_eq_some hex
      obtain ⟨p, hfind, -⟩ := Option.map_eq_some'.mp hfc
      have hp := List.find?_some hfind
      have hpm := List.mem_of_find?_eq_some hfind
      obtain ⟨hmem, heq⟩ := normsOf_forall p hpm
      refine ⟨c, hc, p.2, hmem, ?_⟩
      rw [← heq]
      exact eq_of_beq hp
    | none =>
      simp only [hex]
      constructor
      · intro hsome
        right
        obtain ⟨v, hv⟩ := Option.isSome_iff_exists.mp hsome
        obtain ⟨c, hc, hfc⟩ := List.exists_of_findSome?_eq_some hv
        obtain ⟨p, hfind, -⟩ := Option.map_eq_some'.mp hfc
        have hp := List.find?_some hfind
        have hpm := List.mem_of_find?_eq_some hfind
        obtain ⟨hmem, heq⟩ := normsOf_forall p hpm
        exact ⟨c, hc, p.2, hmem, by rw [← heq]; exact hp⟩
      · intro hor
        rcases hor with ⟨c, hc, h, hh, heq⟩ | ⟨c, hc, h, hh, hocc⟩
        · exfalso
          have hnone := List.findSome?_eq_none_iff.mp hex c hc
          rw [Option.map_eq_none'] at hnone
          obtain ⟨p, hpmem, hpx⟩ := (normsOf_keys (_norm c)).mpr ⟨h, hh, heq⟩
          have : ((normsOf hs).find? (fun p => p.1 == _norm c)).isSome :=
            List.find?_isSome.mpr ⟨p, hpmem, by rw [hpx]; exact beq_self_eq_true _⟩
          rw [hnone] at this
          cases this
        · rw [Option.isSome_iff_exists]
          cases hfb : cs.findSome? (fun cand =>
              ((normsOf hs).find? (fun p => occurs (_norm cand) p.1)).map (·.2)) with
          | some v => exact ⟨v, rfl⟩
          | none =>
            exfalso
            have hnone := List.findSome?_eq_none_iff.mp hfb c hc
            rw [Option.map_eq_none'] at hnone
            obtain ⟨p, hpmem, hpx⟩ := (normsOf_keys (_norm h)).mpr ⟨h, hh, rfl⟩
            have : ((normsOf hs).find? (fun p => occurs (_norm c) p.1)).isSome :=
              List.find?_isSome.mpr ⟨p, hpmem, by rw [hpx]; exact hocc⟩
            rw [hnone] at this
            cases this
  · intro v hv
    unfold find_col at hv
    cases hex : cs.findSome? (fun cand =>
        ((normsOf hs).find? (fun p => p.1 == _norm cand)).map (·.2)) with
    | some w =>
      simp only [hex, Option.some.injEq] at hv
      obtain ⟨c, hc, hfc⟩ := List.exists_of_findSome?_eq_some hex
      obtain ⟨p, hfind, hps⟩ := Option.map_eq_some'.mp hfc
      have hpm := List.mem_of_find?_eq_some hfind
      obtain ⟨hmem, -⟩ := normsOf_forall p hpm
      rw [← hv, ← hps]
      exact hmem
    | none =>
      simp only [hex] at hv
      obtain ⟨c, hc, hfc⟩ := List.exists_of_findSome?_eq_some hv
      obtain ⟨p, hfind, hps⟩ := Option.map_eq_some'.mp hfc
      have hpm := List.mem_of_find?_eq_some hfind
      obtain ⟨hmem, -⟩ := normsOf_forall p hpm
      rw [← hps]
      exact hmem

/-! ## Claim C7 -/

theorem mem_dropWhile_of_neg {p : Char → Bool} {c : Char} (hc : p c = false) :
    ∀ {l : List Char}, c ∈ l → c ∈ l.dropWhile p := by
  intro l
  induction l with
  | nil => intro h; cases h
  | cons a t ih =>
    intro h
    rw [List.dropWhile_cons]
    by_cases ha : p a = true
    · rw [if_pos ha]
      rcases List.mem_cons.mp h with rfl | h
      · rw [hc] at ha; cases ha
      · exact ih h
    · rw [if_neg ha]
      exact h

/-- `str.strip` removes only whitespace: a non-whitespace character
survives it. -/
theorem mem_stripCs {c : Char} {cs : List Char} (hc : isWS c = false) (h : c ∈ cs) :
    c ∈ stripCs cs := by
  unfold stripCs
  apply List.mem_reverse.mpr
  apply mem_dropWhile_of_neg hc
  apply List.mem_reverse.mpr
  exact mem_dropWhile_of_neg hc h

theorem mem_of_mem_stripCs {c : Char} {cs : List Char} (h : c ∈ stripCs cs) : c ∈ cs := by
  unfold stripCs at h
  rw [List.mem_reverse] at h
  have h2 := (List.dropWhile_sublist _).subset h
  rw [List.mem_reverse] at h2
  exact (List.dropWhile_sublist _).subset h2

/-- A string containing a comma is not a float literal. -/
theorem pyFloatMag_none_of_comma {cs₁ : List Char} (h : ',' ∈ cs₁) :
    pyFloatMag cs₁ = none := by
  have happ : cs₁.takeWhile Char.isDigit ++ cs₁.dropWhile Char.isDigit = cs₁ :=
    List.takeWhile_append_dropWhile _ _
  simp only [pyFloatMag, takeDigits]
  rcases hdw : cs₁.dropWhile Char.isDigit with _ | ⟨c, cs₃⟩
  · exfalso
    rw [hdw, List.append_nil] at happ
    have h2 : ',' ∈ cs₁.takeWhile Char.isDigit := by rw [happ]; exact h
    have := List.mem_takeWhile_imp h2
    simp at this
  · have hmem : ',' ∈ (c :: cs₃ : List Char) := by
      rw [hdw] at happ
      rcases List.mem_append.mp (happ ▸ h) with hin | hin
      · exact absurd (List.mem_takeWhile_imp hin) (by simp)
      · exact hin
    split
    · next heq => exact absurd heq (List.cons_ne_nil _ _)
    · next cs₄ heq =>
      injection heq with hc hcs
      subst hcs
      rw [if_neg]
      have hmem3 : ',' ∈ cs₃ := by
        rcases List.mem_cons.mp hmem with hcc | hcc
        · exact absurd (hcc.trans hc) (by decide)
        · exact hcc
      have happ3 : cs₃.takeWhile Char.isDigit ++ cs₃.dropWhile Char.isDigit = cs₃ :=
        List.takeWhile_append_dropWhile _ _
      have hmem4 : ',' ∈ cs₃.dropWhile Char.isDigit := by
        rcases List.mem_append.mp (happ3 ▸ hmem3) with hin | hin
        · exact absurd (List.mem_takeWhile_imp hin) (by simp)
        · exact hin
      have hne : cs₃.dropWhile Char.isDigit ≠ [] := by
        intro hz
        rw [hz] at hmem4
        cases hmem4
      simp [List.isEmpty_iff, hne]
    · next => rfl

/-- `float` raises on any string containing a comma. -/
theorem pyFloat_none_of_comma {s : String} (h : ',' ∈ stripCs s.toList) :
    pyFloat s = none := by
  unfold pyFloat
  rcases hst : stripCs s.toList with _ | ⟨c, r⟩
  · rw [hst] at h
    cases h
  · rw [hst] at h
    split
    · next r' heq =>
      injection heq with hc hr
      subst hr
      apply Option.map_eq_none'.mpr
      apply pyFloatMag_none_of_comma
      rcases List.mem_cons.mp h with hcc | hcc
      · exact absurd (hcc.trans hc) (by decide)
      · exact hcc
    · next r' heq =>
      injection heq with hc hr
      subst hr
      apply pyFloatMag_none_of_comma
      rcases List.mem_cons.mp h with hcc | hcc
      · exact absurd (hcc.trans hc) (by decide)
      · exact hcc
    · next => exact pyFloatMag_none_of_comma h

/-- Modelled from the specification's words for C7: for a string carrying
both separators, the dots (thousands separators) are removed and the comma
becomes the decimal point. -/
def specBothSeps (cs : List Char) : List Char :=
  (cs.filter (fun c => c ≠ '.')).map (fun c => if c = ',' then '.' else c)

/-- Modelled from the specification's words for C7: for a string whose
only separator is a comma, the comma becomes the decimal point. -/
def specOnlyComma (cs : List Char) : List Char :=
  cs.map (fun c => if c = ',' then '.' else c)

/-- C7: `parse_amount` is total and never raises — numeric values pass
through; a string with both `,` and `.` is read with dots as thousands
separators and the comma as decimal point; a string with only `,` is read
with the comma as decimal point; anything that still fails parses to `0.0`.
(The string is whitespace-stripped and despaced first, which preserves the
separator characters.) -/
theorem c7_parse_amount_total :
    (∀ q : ℚ, parse_amount (.num q) = q) ∧
    parse_amount .na = 0 ∧
    (∀ s : String, ',' ∈ s.toList → '.' ∈ s.toList →
      parse_amount (.str s) =
        (pyFloat (pyStrOfChars (specBothSeps
          ((stripCs s.toList).filter (fun c => c ≠ ' '))))).getD 0) ∧
    (∀ s : String, ',' ∈ s.toList → '.' ∉ s.toList →
      parse_amount (.str s) =
        (pyFloat (pyStrOfChars (specOnlyComma
          ((stripCs s.toList).filter (fun c => c ≠ ' '))))).getD 0) ∧
    (∀ s : String,
      pyFloat (pyStrOfChars (stripCs s.toList)) = none →
      pyFloat (pyStrOfChars ((stripCs s.toList).filter (fun c => c ≠ ' '))) = none →
      pyFloat (pyStrOfChars (specOnlyComma
        ((stripCs s.toList).filter (fun c => c ≠ ' ')))) = none →
      pyFloat (pyStrOfChars (specBothSeps
        ((stripCs s.toList).filter (fun c => c ≠ ' ')))) = none →
      parse_amount (.str s) = 0) := by
  refine ⟨fun q => rfl, rfl, ?_, ?_, ?_⟩
  · intro s h1 h2
    have hcs : ',' ∈ stripCs s.toList := mem_stripCs (by decide) h1
    have hds : '.' ∈ stripCs s.toList := mem_stripCs (by decide) h2
    have hcf : ',' ∈ (stripCs s.toList).filter (fun c => c ≠ ' ') :=
      List.mem_filter.mpr ⟨hcs, by decide⟩
    have hdf : '.' ∈ (stripCs s.toList).filter (fun c => c ≠ ' ') :=
      List.mem_filter.mpr ⟨hds, by decide⟩
    have hfail : pyFloat (pyStrOfChars (stripCs s.toList)) = none :=
      pyFloat_none_of_comma (mem_stripCs (by decide) hcs)
    have hb : (((stripCs s.toList).filter (fun c => c ≠ ' ')).contains ',' &&
        ((stripCs s.toList).filter (fun c => c ≠ ' ')).contains '.') = true := by
      rw [Bool.and_eq_true]
      exact ⟨List.elem_iff.mpr hcf, List.elem_iff.mpr hdf⟩
    simp only [parse_amount, hfail, hb, if_true]
    rfl
  · intro s h1 h2
    have hcs : ',' ∈ stripCs s.toList := mem_stripCs (by decide) h1
    have hcf : ',' ∈ (stripCs s.toList).filter (fun c => c ≠ ' ') :=
      List.mem_filter.mpr ⟨hcs, by decide⟩
    have hfail : pyFloat (pyStrOfChars (stripCs s.toList)) = none :=
      pyFloat_none_of_comma (mem_stripCs (by decide) hcs)
    have hdot : ((stripCs s.toList).filter (fun c => c ≠ ' ')).contains '.' = false := by
      rw [← Bool.not_eq_true]
      intro hcon
      exact h2 (mem_of_mem_stripCs (List.mem_of_mem_filter (List.elem_iff.mp hcon)))
    have hb2 : ((stripCs s.toList).filter (fun c => c ≠ ' ')).contains ',' = true :=
      List.elem_iff.mpr hcf
    simp only [parse_amount, hfail, hb2, hdot, Bool.and_false, Bool.true_and,
      Bool.false_eq_true, if_false, if_true]
    rfl
  · intro s h1 h2 h3 h4
    simp only [parse_amount, h1]
    by_cases hb : (((stripCs s.toList).filter (fun c => c ≠ ' ')).contains ',' &&
        ((stripCs s.toList).filter (fun c => c ≠ ' ')).contains '.') = true
    · rw [if_pos hb]
      unfold specBothSeps at h4
      rw [h4]
      rfl
    · rw [if_neg hb]
      by_cases hb2 : ((stripCs s.toList).filter (fun c => c ≠ ' ')).contains ',' = true
      · rw [if_pos hb2]
        unfold specOnlyComma at h3
        rw [h3]
        rfl
      · rw [if_neg hb2]
        rw [h2]
        rfl

/-- C7 witness: the clauses applied at the claim's own examples. -/
theorem c7_witness :
    parse_amount (.num 7) = 7 ∧
    parse_amount (.str "1.234,56") = Rat.divInt 30864 25 ∧
    parse_amount (.str "46,16") = Rat.divInt 1154 25 ∧
    parse_amount (.str "abc") = 0 := by
  refine ⟨c7_parse_amount_total.1 7, ?_, ?_, ?_⟩
  · have h := c7_parse_amount_total.2.2.1 "1.234,56" (by decide) (by decide)
    rw [h]
    with_unfolding_all rfl
  · have h := c7_parse_amount_total.2.2.2.1 "46,16" (by decide) (by decide)
    rw [h]
    with_unfolding_all rfl
  · exact c7_parse_amount_total.2.2.2.2 "abc" rfl rfl rfl rfl

set_option maxRecDepth 4000 in
/-- C10 witness: the header-metadata statement at the concrete
two-transaction Acme run. -/
theorem c10_witness :
    ∃ p ∈ clientGroups pdNone false [astAcme1, astAcme2] true [keyAcme],
      ∃ first rest, p.2 = first :: rest ∧
        ((run_generator pdNone nowFeb false [astAcme1, astAcme2] true
            [keyAcme]).docs.getD 0 dummyDoc).client = p.1 ∧
        ((run_generator pdNone nowFeb false [astAcme1, astAcme2] true
            [keyAcme]).docs.getD 0 dummyDoc).rc = first.reg ∧
        ((run_generator pdNone nowFeb false [astAcme1, astAcme2] true
            [keyAcme]).docs.getD 0 dummyDoc).cui = first.cui ∧
        ((run_generator pdNone nowFeb false [astAcme1, astAcme2] true
            [keyAcme]).docs.getD 0 dummyDoc).adresa = first.adresa ∧
        ∀ r ∈ p.2, dtLE first.data r.data ∧ (first.data = r.data → first.idx ≤ r.idx) :=
  c10_header_from_first pdNone nowFeb false [astAcme1, astAcme2] true [keyAcme]
    ((run_generator pdNone nowFeb false [astAcme1, astAcme2] true
        [keyAcme]).docs.getD 0 dummyDoc)
    (of_decide_eq_true (by with_unfolding_all rfl))

def astAcme999 : AstRow := ⟨"999", "S9", "OpC", .num 10, .str "2024-01-04 10:00:00", ""⟩

/-- The specification's §8 example scenario, evaluated end to end: two
transactions on terminal `"100"` (client `"Acme SRL"`) and one on the
unknown terminal `"999"` produce exactly one document, rows ordered
2024-01-03 then 2024-01-05, total `50.50`, collection period
`03.01.2024 - 05.01.2024`, and no trace of the `"999"` row. -/
theorem example_scenario_acme :
    ((run_generator pdNone nowFeb false [astAcme1, astAcme2, astAcme999] true
        [keyAcme]).docs.map fun d =>
      (d.fname, d.colectari, d.total, d.txs.map fun t => (t.tid, t.produs, t.valoare, t.dataCell))) =
    [("Ordin - Acme SRL.xlsx", "03.01.2024 - 05.01.2024", Rat.divInt 101 2,
      [("100", "OpB", Rat.divInt 41 2, "2024-01-03 14:00:00"),
       ("100", "OpA", 30, "2024-01-05 09:00:00")])] := by
  with_unfolding_all rfl
